import Mathlib

/-!
# Motor controller orchestration: Lean model of `MotorController.cpp`

A shallow embedding of `src/AVR/MotorController/MotorController.cpp`.

* I/O registers are 8-bit cells of a register file indexed by address; an
  assignment `X |= M` or `X &= ~M` is a read-modify-write of one cell.
* Calls into the motors driver, the planner and the canonical machine leave
  this translation unit; each one is recorded, with its arguments, in an
  effect trace, in program order, together with every register write. What
  a callee does to its own state is not part of the world modelled here.
* Macros and declarations that come from headers outside the sources
  (`Hardware.h`, `avr/io.h`, the shared command header, `AxisSettings`) are
  parameters collected in `Decls`.
* The build modelled is the one without `DEBUG`: the `printf_P` lines are not
  compiled in.
* `distance` is an `int32_t` and is converted to `float` before `fabs`; the
  single-precision image of an integer is again an integer, so the conversion
  is a function on integers that keeps 24 significant bits.
-/

namespace MotorController

/-! ## Data model -/

/-- Modelled from the spec: the `AxisSettings` class is declared outside the
sources. The spec lists its fields as step angle, units-per-revolution,
microstepping mode, max jerk, speed and max speed; the microstepping mode is a
small unsigned integer, the others are `float`. A `float` field holds a
rational number: every finite `float` is one. -/
structure AxisSettings where
  stepAngle : ℚ
  unitsPerRevolution : ℚ
  microsteppingMode : Nat
  maxJerk : ℚ
  speed : ℚ
  maxSpeed : ℚ
deriving DecidableEq, Repr

/-- Modelled from the spec: `AxisSettings::SetStepAngle`, a store of a `float` to the one field. -/
def AxisSettings.SetStepAngle (s : AxisSettings) (value : ℚ) : AxisSettings :=
  { s with stepAngle := value }

/-- Modelled from the spec: `AxisSettings::SetUnitsPerRevolution`, a store of a `float` to the one field. -/
def AxisSettings.SetUnitsPerRevolution (s : AxisSettings) (value : ℚ) : AxisSettings :=
  { s with unitsPerRevolution := value }

/-- Modelled from the spec: `AxisSettings::SetMicrosteppingMode`, a store to the one field. -/
def AxisSettings.SetMicrosteppingMode (s : AxisSettings) (value : Nat) : AxisSettings :=
  { s with microsteppingMode := value }

/-- Modelled from the spec: `AxisSettings::SetMaxJerk`, a store of a `float` to the one field. -/
def AxisSettings.SetMaxJerk (s : AxisSettings) (value : ℚ) : AxisSettings :=
  { s with maxJerk := value }

/-- Modelled from the spec: `AxisSettings::SetSpeed`, a store of a `float` to the one field. -/
def AxisSettings.SetSpeed (s : AxisSettings) (value : ℚ) : AxisSettings :=
  { s with speed := value }

/-- Modelled from the spec: `AxisSettings::SetMaxSpeed`, a store of a `float` to the one field. -/
def AxisSettings.SetMaxSpeed (s : AxisSettings) (value : ℚ) : AxisSettings :=
  { s with maxSpeed := value }

/-- The fields of `MotorController_t` that `MotorController.cpp` touches. -/
structure MotorController_t where
  motionComplete : Bool
  zAxisSettings : AxisSettings
  rAxisSettings : AxisSettings
deriving DecidableEq, Repr

/-- The command envelope: a `uint8_t` tag and an `int32_t` parameter. -/
structure EventData where
  command : Nat
  parameter : Int
deriving DecidableEq, Repr

/-- The register file: the 8-bit value held at each I/O address. -/
abbrev Registers := Nat → Nat

/-- One observable effect of the translation unit: a register write, or a call
that leaves it. A `float` argument that is the image of an integer is held as
that integer. -/
inductive Effect where
  | write (reg value : Nat)
  | Motors_Initialize
  | Motors_Reset
  | Motors_SetMicrosteppingMode (mode : Nat)
  | mp_init
  | mp_init_buffers
  | mp_set_axis_position (axis : Nat) (position : Int)
  | cm_init
  | cm_cycle_start
  | cm_cycle_end
  | cm_straight_feed (motorIndex : Nat) (distance : Int) (settings : AxisSettings)
  | cm_begin_feedhold
  | _delay_ms (ms : Nat)
deriving DecidableEq, Repr

/-- Declarations the source uses from headers that are not among the sources:
register addresses and bit masks (`Hardware.h`, `avr/io.h`), the two
limit-switch level tests, the axis indices, the settings command tags and
`AxisSettings::PulsesPerUnit`. -/
structure Decls where
  INTERRUPT_DDR : Nat
  INTERRUPT_DD_BM : Nat
  INTERRUPT_PORT : Nat
  INTERRUPT_BM : Nat
  Z_AXIS_LIMIT_SW_DDR : Nat
  Z_AXIS_LIMIT_SW_DD_BM : Nat
  R_AXIS_LIMIT_SW_DDR : Nat
  R_AXIS_LIMIT_SW_DD_BM : Nat
  Z_AXIS_LIMIT_SW_PORT : Nat
  Z_AXIS_LIMIT_SW_BM : Nat
  R_AXIS_LIMIT_SW_PORT : Nat
  R_AXIS_LIMIT_SW_BM : Nat
  PCICR : Nat
  LIMIT_SW_PCIE_BM : Nat
  LIMIT_SW_PCMSK : Nat
  Z_AXIS_LIMIT_SW_PCINT_BM : Nat
  R_AXIS_LIMIT_SW_PCINT_BM : Nat
  Z_AXIS_LIMIT_SW_HIT : Registers → Bool
  R_AXIS_LIMIT_SW_HIT : Registers → Bool
  Z_AXIS : Nat
  R_AXIS : Nat
  MC_STEP_ANGLE : Nat
  MC_UNITS_PER_REV : Nat
  MC_MICROSTEPPING : Nat
  MC_JERK : Nat
  MC_SPEED : Nat
  MC_MAX_SPEED : Nat
  PulsesPerUnit : AxisSettings → ℚ

/-- Everything the translation unit reads or writes: the register file, the
shared `mcState`, the globals `stepCount` and `PulsesPerUnit`, and the trace of
effects so far. -/
structure World where
  regs : Registers
  mcState : MotorController_t
  stepCount : Int
  PulsesPerUnit : ℚ
  trace : List Effect

/-! ## Register and call primitives -/

/-- The register file after storing `v` at address `r`. -/
def Registers.store (regs : Registers) (r v : Nat) : Registers :=
  fun a => if a = r then v else regs a

/-- Store `v` into register `r` and record the write. -/
def writeReg (r v : Nat) (w : World) : World :=
  { w with regs := w.regs.store r v, trace := w.trace ++ [Effect.write r v] }

/-- The statement `X |= M` on an 8-bit register. -/
def orAssign (r m : Nat) (w : World) : World :=
  writeReg r ((w.regs r ||| m) % 256) w

/-- The statement `X &= ~M` on an 8-bit register. -/
def andNotAssign (r m : Nat) (w : World) : World :=
  writeReg r (w.regs r &&& (255 ^^^ (m % 256))) w

/-- A call that leaves the translation unit. -/
def call (e : Effect) (w : World) : World :=
  { w with trace := w.trace ++ [e] }

/-! ## Conversion of the distance -/

/-- Number of low bits an integer magnitude loses in a 24-bit significand. -/
def lostBits : Nat → Nat → Nat
  | 0, _ => 0
  | fuel + 1, n => if n < 2 ^ 24 then 0 else 1 + lostBits fuel (n / 2)

/-- The single-precision value nearest to a magnitude below `2 ^ 32`, ties to
the even significand. -/
def roundToFloat (n : Nat) : Nat :=
  let e := lostBits 8 n
  let q := n / 2 ^ e
  let r := n % 2 ^ e
  if 2 * r < 2 ^ e then q * 2 ^ e
  else if 2 ^ e < 2 * r then (q + 1) * 2 ^ e
  else if q % 2 = 0 then q * 2 ^ e
  else (q + 1) * 2 ^ e

/-- The conversion `static_cast<float>(distance)` of an `int32_t`. -/
def static_cast_float (distance : Int) : Int :=
  if distance < 0 then -((roundToFloat distance.natAbs : Nat) : Int)
  else ((roundToFloat distance.natAbs : Nat) : Int)

/-- The conversion of an `int32_t` argument to a `float` parameter or field:
the value of `static_cast_float`, as a `float`. -/
def toFloat (parameter : Int) : ℚ := ((static_cast_float parameter : Int) : ℚ)

/-- The library function `fabs`. -/
def fabs (x : Int) : Int := |x|

/-- The conversion `static_cast<uint8_t>(parameter)` of an `int32_t`. -/
def static_cast_uint8 (parameter : Int) : Nat := (parameter % 256).toNat

/-! ## Operations of `MotorController.cpp` -/

/-- `MotorController::Initialize`. -/
def Initialize (D : Decls) (w : World) : World :=
  let w := orAssign D.INTERRUPT_DDR D.INTERRUPT_DD_BM w
  let w := orAssign D.INTERRUPT_PORT D.INTERRUPT_BM w
  let w := andNotAssign D.Z_AXIS_LIMIT_SW_DDR D.Z_AXIS_LIMIT_SW_DD_BM w
  let w := andNotAssign D.R_AXIS_LIMIT_SW_DDR D.R_AXIS_LIMIT_SW_DD_BM w
  let w := orAssign D.Z_AXIS_LIMIT_SW_PORT D.Z_AXIS_LIMIT_SW_BM w
  let w := orAssign D.R_AXIS_LIMIT_SW_PORT D.R_AXIS_LIMIT_SW_BM w
  let w := orAssign D.PCICR D.LIMIT_SW_PCIE_BM w
  let w := andNotAssign D.LIMIT_SW_PCMSK D.Z_AXIS_LIMIT_SW_PCINT_BM w
  let w := andNotAssign D.LIMIT_SW_PCMSK D.R_AXIS_LIMIT_SW_PCINT_BM w
  let w := call Effect.Motors_Initialize w
  let w := call Effect.mp_init w
  call Effect.cm_init w

/-- `MotorController::Reset`. -/
def Reset (w : World) : World :=
  call Effect.Motors_Reset w

/-- `MotorController::GenerateInterrupt`. -/
def GenerateInterrupt (D : Decls) (w : World) : World :=
  let w := andNotAssign D.INTERRUPT_PORT D.INTERRUPT_BM w
  let w := call (Effect._delay_ms 50) w
  orAssign D.INTERRUPT_PORT D.INTERRUPT_BM w

/-- `MotorController::HandleSettingsCommand`: the settings object is passed by
reference, so the updated object is returned next to the world. The `int32_t`
parameter is converted to `float` where it is handed to a `float` field. -/
def HandleSettingsCommand (D : Decls) (eventData : EventData) (axisSettings : AxisSettings)
    (w : World) : AxisSettings × World :=
  if eventData.command = D.MC_STEP_ANGLE then
    (axisSettings.SetStepAngle (toFloat eventData.parameter), w)
  else if eventData.command = D.MC_UNITS_PER_REV then
    (axisSettings.SetUnitsPerRevolution (toFloat eventData.parameter), w)
  else if eventData.command = D.MC_MICROSTEPPING then
    let w := call (Effect.Motors_SetMicrosteppingMode (static_cast_uint8 eventData.parameter)) w
    (axisSettings.SetMicrosteppingMode (static_cast_uint8 eventData.parameter), w)
  else if eventData.command = D.MC_JERK then
    (axisSettings.SetMaxJerk (toFloat eventData.parameter), w)
  else if eventData.command = D.MC_SPEED then
    (axisSettings.SetSpeed (toFloat eventData.parameter), w)
  else if eventData.command = D.MC_MAX_SPEED then
    (axisSettings.SetMaxSpeed (toFloat eventData.parameter), w)
  else
    (axisSettings, w)

/-- `MotorController::Move`. -/
def Move (D : Decls) (motorIndex : Nat) (distance : Int) (settings : AxisSettings)
    (w : World) : World :=
  let w := { w with stepCount := 0 }
  let w := { w with PulsesPerUnit := D.PulsesPerUnit settings }
  let w := call (Effect.mp_set_axis_position D.Z_AXIS 0) w
  let w := call (Effect.mp_set_axis_position D.R_AXIS 0) w
  let w := call Effect.cm_cycle_start w
  call (Effect.cm_straight_feed motorIndex (fabs (static_cast_float distance)) settings) w

/-- `MotorController::HomeZAxis`. -/
def HomeZAxis (D : Decls) (homingDistance : Int) (w : World) : World :=
  if D.Z_AXIS_LIMIT_SW_HIT w.regs then
    { w with mcState := { w.mcState with motionComplete := true } }
  else
    let w := orAssign D.LIMIT_SW_PCMSK D.Z_AXIS_LIMIT_SW_PCINT_BM w
    Move D (D.Z_AXIS % 256) homingDistance w.mcState.zAxisSettings w

/-- `MotorController::HomeRAxis`. -/
def HomeRAxis (D : Decls) (homingDistance : Int) (w : World) : World :=
  if D.R_AXIS_LIMIT_SW_HIT w.regs then
    { w with mcState := { w.mcState with motionComplete := true } }
  else
    let w := orAssign D.LIMIT_SW_PCMSK D.R_AXIS_LIMIT_SW_PCINT_BM w
    Move D (D.R_AXIS % 256) homingDistance w.mcState.rAxisSettings w

/-- `MotorController::HandleAxisLimitReached`. -/
def HandleAxisLimitReached (w : World) : World :=
  call Effect.cm_begin_feedhold w

/-- `MotorController::EndMotion`. -/
def EndMotion (w : World) : World :=
  let w := { w with stepCount := 0 }
  let w := call Effect.mp_init_buffers w
  call Effect.cm_cycle_end w

/-! ## Axis-indexed view of the two homing entry points -/

/-- The two axes that have a limit switch. -/
inductive Axis where
  | Z
  | R
deriving DecidableEq, Repr

/-- The level test `Z_AXIS_LIMIT_SW_HIT` or `R_AXIS_LIMIT_SW_HIT` of an axis. -/
def Axis.hit (D : Decls) : Axis → Registers → Bool
  | Axis.Z => D.Z_AXIS_LIMIT_SW_HIT
  | Axis.R => D.R_AXIS_LIMIT_SW_HIT

/-- The pin-change mask bit of an axis in `LIMIT_SW_PCMSK`. -/
def Axis.pcintMask (D : Decls) : Axis → Nat
  | Axis.Z => D.Z_AXIS_LIMIT_SW_PCINT_BM
  | Axis.R => D.R_AXIS_LIMIT_SW_PCINT_BM

/-- The motor index `Z_AXIS` or `R_AXIS` of an axis. -/
def Axis.index (D : Decls) : Axis → Nat
  | Axis.Z => D.Z_AXIS
  | Axis.R => D.R_AXIS

/-- The settings of an axis held in `mcState`. -/
def Axis.settings : Axis → MotorController_t → AxisSettings
  | Axis.Z, s => s.zAxisSettings
  | Axis.R, s => s.rAxisSettings

/-- The other axis. -/
def Axis.other : Axis → Axis
  | Axis.Z => Axis.R
  | Axis.R => Axis.Z

/-- `HomeZAxis` or `HomeRAxis`, by axis. -/
def HomeAxis (D : Decls) : Axis → Int → World → World
  | Axis.Z => HomeZAxis D
  | Axis.R => HomeRAxis D

/-! ## The register assignments of `Initialize` as a list -/

/-- One read-modify-write of `Initialize`: `reg |= mask` when `set`, else `reg &= ~mask`. -/
structure PinOp where
  set : Bool
  reg : Nat
  mask : Nat
deriving DecidableEq, Repr

/-- Run one register assignment. -/
def PinOp.run (op : PinOp) (w : World) : World :=
  if op.set then orAssign op.reg op.mask w else andNotAssign op.reg op.mask w

/-- Run register assignments in order. -/
def runOps (ops : List PinOp) (w : World) : World :=
  ops.foldl (fun w op => op.run w) w

/-- The nine register assignments of `Initialize`, in program order. -/
def initOps (D : Decls) : List PinOp :=
  [ ⟨true, D.INTERRUPT_DDR, D.INTERRUPT_DD_BM⟩,
    ⟨true, D.INTERRUPT_PORT, D.INTERRUPT_BM⟩,
    ⟨false, D.Z_AXIS_LIMIT_SW_DDR, D.Z_AXIS_LIMIT_SW_DD_BM⟩,
    ⟨false, D.R_AXIS_LIMIT_SW_DDR, D.R_AXIS_LIMIT_SW_DD_BM⟩,
    ⟨true, D.Z_AXIS_LIMIT_SW_PORT, D.Z_AXIS_LIMIT_SW_BM⟩,
    ⟨true, D.R_AXIS_LIMIT_SW_PORT, D.R_AXIS_LIMIT_SW_BM⟩,
    ⟨true, D.PCICR, D.LIMIT_SW_PCIE_BM⟩,
    ⟨false, D.LIMIT_SW_PCMSK, D.Z_AXIS_LIMIT_SW_PCINT_BM⟩,
    ⟨false, D.LIMIT_SW_PCMSK, D.R_AXIS_LIMIT_SW_PCINT_BM⟩ ]

/-- Bit `i` of register `a` is named by the assignment `op`. -/
def PinOp.touches (op : PinOp) (a i : Nat) : Prop :=
  a = op.reg ∧ op.mask.testBit i = true

/-- The pin assignment of the board is coherent: every mask fits the 8-bit
register, and a bit that `Initialize` sets is not one it clears. -/
def PinsWellFormed (D : Decls) : Prop :=
  (∀ p ∈ initOps D, p.mask < 256) ∧
  (∀ p ∈ initOps D, ∀ q ∈ initOps D, p.set = true → q.set = false → p.reg = q.reg →
    p.mask &&& q.mask = 0)

instance (D : Decls) : Decidable (PinsWellFormed D) := by
  unfold PinsWellFormed; infer_instance

/-- The two limit switches use different pin-change bits of `LIMIT_SW_PCMSK`. -/
def SwitchBitsDistinct (D : Decls) : Prop :=
  D.Z_AXIS_LIMIT_SW_PCINT_BM &&& D.R_AXIS_LIMIT_SW_PCINT_BM = 0

instance (D : Decls) : Decidable (SwitchBitsDistinct D) := by
  unfold SwitchBitsDistinct; infer_instance

/-- The six settings command tags are the distinct labels of the `switch`. -/
def TagsDistinct (D : Decls) : Prop :=
  [D.MC_STEP_ANGLE, D.MC_UNITS_PER_REV, D.MC_MICROSTEPPING, D.MC_JERK, D.MC_SPEED,
    D.MC_MAX_SPEED].Nodup

instance (D : Decls) : Decidable (TagsDistinct D) := by
  unfold TagsDistinct; infer_instance

/-! ## Planner and canonical-machine state -/

/-- The cycle state owned by the canonical machine. -/
inductive CycleState where
  | running
  | feedhold
  | ended
deriving DecidableEq, Repr

/-- The planner queue and the cycle state, as far as this unit drives them. -/
structure PlannerCM where
  queue : List (Nat × Int)
  cycle : CycleState
deriving DecidableEq, Repr

/-- Modelled from the spec: `mp_init_buffers`, whose code is outside the
sources, flushes the planner: the queue is emptied. -/
def mp_init_buffers (p : PlannerCM) : PlannerCM :=
  { p with queue := [] }

/-- Modelled from the spec: `cm_cycle_end`, whose code is outside the sources,
sets the cycle state to ended. -/
def cm_cycle_end (p : PlannerCM) : PlannerCM :=
  { p with cycle := CycleState.ended }

/-- The planner and canonical-machine state after a sequence of effects, each
call acting through `handle`. -/
def runEffects (handle : Effect → PlannerCM → PlannerCM) (es : List Effect)
    (p : PlannerCM) : PlannerCM :=
  es.foldl (fun q e => handle e q) p

/-- The effects `w2` has recorded beyond those of `w1`. -/
def emitted (w1 w2 : World) : List Effect :=
  w2.trace.drop w1.trace.length

/-! ## A concrete board -/

/-- A pin assignment on an ATmega328P: host interrupt on PB0, limit switches
on PC1 (Z) and PC2 (R), pin-change group 1, a switch reading high when hit. -/
def board : Decls where
  INTERRUPT_DDR := 0x24
  INTERRUPT_DD_BM := 1
  INTERRUPT_PORT := 0x25
  INTERRUPT_BM := 1
  Z_AXIS_LIMIT_SW_DDR := 0x27
  Z_AXIS_LIMIT_SW_DD_BM := 2
  R_AXIS_LIMIT_SW_DDR := 0x27
  R_AXIS_LIMIT_SW_DD_BM := 4
  Z_AXIS_LIMIT_SW_PORT := 0x28
  Z_AXIS_LIMIT_SW_BM := 2
  R_AXIS_LIMIT_SW_PORT := 0x28
  R_AXIS_LIMIT_SW_BM := 4
  PCICR := 0x68
  LIMIT_SW_PCIE_BM := 2
  LIMIT_SW_PCMSK := 0x6C
  Z_AXIS_LIMIT_SW_PCINT_BM := 2
  R_AXIS_LIMIT_SW_PCINT_BM := 4
  Z_AXIS_LIMIT_SW_HIT := fun regs => decide (regs 0x26 &&& 2 ≠ 0)
  R_AXIS_LIMIT_SW_HIT := fun regs => decide (regs 0x26 &&& 4 ≠ 0)
  Z_AXIS := 0
  R_AXIS := 1
  MC_STEP_ANGLE := 1
  MC_UNITS_PER_REV := 2
  MC_MICROSTEPPING := 3
  MC_JERK := 4
  MC_SPEED := 5
  MC_MAX_SPEED := 6
  PulsesPerUnit := fun s =>
    (360000 / s.stepAngle) * (2 ^ s.microsteppingMode : ℚ) / s.unitsPerRevolution

/-- Settings of a 1.8 degree motor, in thousandths of a unit. -/
def sampleSettings : AxisSettings :=
  { stepAngle := 1800, unitsPerRevolution := 2000, microsteppingMode := 3,
    maxJerk := 100, speed := 4500, maxSpeed := 10000 }

/-- A world with every register cleared, no switch hit and the flag clear. -/
def idleWorld : World :=
  { regs := fun _ => 0,
    mcState := { motionComplete := false, zAxisSettings := sampleSettings,
                 rAxisSettings := sampleSettings },
    stepCount := 0, PulsesPerUnit := 0, trace := [] }

/-- A world in which both limit switches read as hit. -/
def homeWorld : World :=
  { idleWorld with regs := fun a => if a = 0x26 then 6 else 0 }

/-- A world in which no switch is hit and the flag is still set from an earlier request. -/
def staleWorld : World :=
  { idleWorld with mcState := { idleWorld.mcState with motionComplete := true }, stepCount := 77 }

/-- A handler of external calls on the planner and canonical-machine state:
the flush and the cycle end as modelled, a cycle start, a queued feed and a
feedhold as the spec names them. -/
def sampleHandle : Effect → PlannerCM → PlannerCM
  | Effect.mp_init_buffers, p => mp_init_buffers p
  | Effect.cm_cycle_end, p => cm_cycle_end p
  | Effect.cm_cycle_start, p => { p with cycle := CycleState.running }
  | Effect.cm_straight_feed i d _, p => { p with queue := p.queue ++ [(i, d)] }
  | Effect.cm_begin_feedhold, p => { p with cycle := CycleState.feedhold }
  | _, p => p

/-! ## Bit-level facts about the two register statements -/

theorem testBit_false_of_lt_256 {m i : Nat} (hm : m < 256) (hi : 8 ≤ i) :
    m.testBit i = false := by
  apply Nat.testBit_lt_two_pow
  calc m < 2 ^ 8 := hm
    _ ≤ 2 ^ i := Nat.pow_le_pow_right (by norm_num) hi

theorem testBit_or_mod (x m i : Nat) :
    ((x ||| m) % 256).testBit i = (decide (i < 8) && (x.testBit i || m.testBit i)) := by
  rw [show (256 : Nat) = 2 ^ 8 by norm_num, Nat.testBit_mod_two_pow, Nat.testBit_or]

theorem testBit_and_not (x m i : Nat) :
    (x &&& (255 ^^^ (m % 256))).testBit i
      = (x.testBit i && (decide (i < 8) && !m.testBit i)) := by
  rw [Nat.testBit_and, Nat.testBit_xor, show (255 : Nat) = 2 ^ 8 - 1 by norm_num,
    Nat.testBit_two_pow_sub_one, show (256 : Nat) = 2 ^ 8 by norm_num,
    Nat.testBit_mod_two_pow]
  by_cases h : i < 8 <;> simp [h]

theorem and_eq_zero_of_bits {x m : Nat}
    (h : ∀ i, m.testBit i = true → x.testBit i = false) : x &&& m = 0 := by
  apply Nat.eq_of_testBit_eq
  intro i
  rw [Nat.testBit_and, Nat.zero_testBit]
  cases hm : m.testBit i
  · simp
  · simp [h i hm]

theorem and_eq_self_of_bits {x m : Nat}
    (h : ∀ i, m.testBit i = true → x.testBit i = true) : x &&& m = m := by
  apply Nat.eq_of_testBit_eq
  intro i
  rw [Nat.testBit_and]
  cases hm : m.testBit i
  · simp
  · simp [h i hm]

theorem bits_disjoint {p q i : Nat} (h : p &&& q = 0) (hp : p.testBit i = true) :
    q.testBit i = false := by
  have := congrArg (fun n => Nat.testBit n i) h
  simp only [Nat.testBit_and, Nat.zero_testBit, hp, Bool.true_and] at this
  exact this

/-- The low eight bits of the mask are set in the value `X |= M` writes. -/
theorem or_mod_and_mask (x m : Nat) : ((x ||| m) % 256) &&& (m % 256) = m % 256 := by
  apply Nat.eq_of_testBit_eq
  intro i
  rw [Nat.testBit_and, testBit_or_mod, show (256 : Nat) = 2 ^ 8 by norm_num,
    Nat.testBit_mod_two_pow]
  by_cases h : i < 8 <;> cases hm : m.testBit i <;> simp [h]

/-! ## Effect of a list of register statements -/

theorem PinOp.run_testBit (op : PinOp) (w : World) (a i : Nat) (hi : i < 8) :
    ((op.run w).regs a).testBit i
      = if a = op.reg ∧ op.mask.testBit i = true then op.set else (w.regs a).testBit i := by
  obtain ⟨s, r, m⟩ := op
  by_cases ha : a = r
  · subst ha
    cases s
    · have key : (PinOp.run ⟨false, a, m⟩ w).regs a = w.regs a &&& (255 ^^^ (m % 256)) := by
        simp [PinOp.run, andNotAssign, writeReg, Registers.store]
      rw [key, testBit_and_not]
      cases hm : m.testBit i <;> simp [hi]
    · have key : (PinOp.run ⟨true, a, m⟩ w).regs a = (w.regs a ||| m) % 256 := by
        simp [PinOp.run, orAssign, writeReg, Registers.store]
      rw [key, testBit_or_mod]
      cases hm : m.testBit i <;> simp [hi]
  · cases s <;> simp [PinOp.run, orAssign, andNotAssign, writeReg, Registers.store, ha]

theorem PinOp.run_regs_of_ne (op : PinOp) (w : World) (a : Nat) (ha : a ≠ op.reg) :
    (op.run w).regs a = w.regs a := by
  obtain ⟨s, r, m⟩ := op
  cases s <;> simp_all [PinOp.run, orAssign, andNotAssign, writeReg, Registers.store]

theorem runOps_untouched (ops : List PinOp) (w : World) (a i : Nat) (hi : i < 8)
    (h : ∀ op ∈ ops, ¬ op.touches a i) :
    ((runOps ops w).regs a).testBit i = (w.regs a).testBit i := by
  induction ops generalizing w with
  | nil => rfl
  | cons op ops ih =>
    have h1 : ¬ op.touches a i := h op (List.mem_cons_self _ _)
    have h2 : ∀ q ∈ ops, ¬ q.touches a i := fun q hq => h q (List.mem_cons_of_mem _ hq)
    show ((runOps ops (op.run w)).regs a).testBit i = _
    rw [ih (op.run w) h2, PinOp.run_testBit op w a i hi]
    simp only [PinOp.touches] at h1
    simp [h1]

theorem runOps_regs_of_ne (ops : List PinOp) (w : World) (a : Nat)
    (h : ∀ op ∈ ops, a ≠ op.reg) : (runOps ops w).regs a = w.regs a := by
  induction ops generalizing w with
  | nil => rfl
  | cons op ops ih =>
    show (runOps ops (op.run w)).regs a = _
    rw [ih (op.run w) (fun q hq => h q (List.mem_cons_of_mem _ hq)),
      PinOp.run_regs_of_ne op w a (h op (List.mem_cons_self _ _))]

theorem runOps_touched (ops : List PinOp) (w : World) (a i : Nat) (v : Bool) (hi : i < 8)
    (hall : ∀ op ∈ ops, op.touches a i → op.set = v) (hex : ∃ op ∈ ops, op.touches a i) :
    ((runOps ops w).regs a).testBit i = v := by
  induction ops generalizing w with
  | nil => obtain ⟨op, hop, _⟩ := hex; cases hop
  | cons op ops ih =>
    show ((runOps ops (op.run w)).regs a).testBit i = v
    by_cases ht : ∃ q ∈ ops, q.touches a i
    · exact ih (op.run w) (fun q hq => hall q (List.mem_cons_of_mem _ hq)) ht
    · have hnone : ∀ q ∈ ops, ¬ q.touches a i := fun q hq hqt => ht ⟨q, hq, hqt⟩
      rw [runOps_untouched ops (op.run w) a i hi hnone, PinOp.run_testBit op w a i hi]
      obtain ⟨q, hq, hqt⟩ := hex
      rcases List.mem_cons.mp hq with rfl | hq'
      · have hset := hall q (List.mem_cons_self _ _) hqt
        simp only [PinOp.touches] at hqt
        simp [hqt, hset]
      · exact absurd hqt (hnone q hq')

theorem Initialize_regs (D : Decls) (w : World) :
    (Initialize D w).regs = (runOps (initOps D) w).regs := rfl

theorem Initialize_bit (D : Decls) (w : World) (hD : PinsWellFormed D) (p : PinOp)
    (hp : p ∈ initOps D) (i : Nat) (hpi : p.mask.testBit i = true) :
    ((Initialize D w).regs p.reg).testBit i = p.set := by
  obtain ⟨hlt, hdis⟩ := hD
  have hi : i < 8 := by
    by_contra hge
    have := testBit_false_of_lt_256 (hlt p hp) (Nat.le_of_not_lt hge)
    rw [hpi] at this
    cases this
  rw [Initialize_regs]
  apply runOps_touched (initOps D) w p.reg i p.set hi
  · intro q hq hqt
    obtain ⟨hreg, hqi⟩ := hqt
    cases hps : p.set <;> cases hqs : q.set <;> try rfl
    · have := bits_disjoint (hdis q hq p hp hqs hps hreg.symm) hqi
      rw [hpi] at this
      cases this
    · have := bits_disjoint (hdis p hp q hq hps hqs hreg) hpi
      rw [hqi] at this
      cases this
  · exact ⟨p, hp, rfl, hpi⟩

theorem Initialize_sets (D : Decls) (w : World) (hD : PinsWellFormed D) (r m : Nat)
    (hp : (⟨true, r, m⟩ : PinOp) ∈ initOps D) : (Initialize D w).regs r &&& m = m :=
  and_eq_self_of_bits (fun i hi => Initialize_bit D w hD ⟨true, r, m⟩ hp i hi)

theorem Initialize_clears (D : Decls) (w : World) (hD : PinsWellFormed D) (r m : Nat)
    (hp : (⟨false, r, m⟩ : PinOp) ∈ initOps D) : (Initialize D w).regs r &&& m = 0 :=
  and_eq_zero_of_bits (fun i hi => Initialize_bit D w hD ⟨false, r, m⟩ hp i hi)


/-! ## Conversion facts -/

theorem lostBits_of_lt (fuel n : Nat) (h : n < 2 ^ 24) : lostBits fuel n = 0 := by
  cases fuel with
  | zero => rfl
  | succ k => exact if_pos h

theorem roundToFloat_of_lt (n : Nat) (h : n < 2 ^ 24) : roundToFloat n = n := by
  unfold roundToFloat
  simp only [lostBits_of_lt 8 n h]
  simp [Nat.mod_one]

theorem roundToFloat_of_le (n : Nat) (h : n ≤ 2 ^ 24) : roundToFloat n = n := by
  rcases Nat.lt_or_ge n (2 ^ 24) with hlt | hge
  · exact roundToFloat_of_lt n hlt
  · have : n = 2 ^ 24 := Nat.le_antisymm h hge
    subst this
    decide

theorem fabs_static_cast_float (d : Int) :
    fabs (static_cast_float d) = ((roundToFloat d.natAbs : Nat) : Int) := by
  unfold fabs static_cast_float
  split
  · rw [abs_neg]
    exact abs_of_nonneg (Int.ofNat_nonneg _)
  · exact abs_of_nonneg (Int.ofNat_nonneg _)

theorem fabs_static_cast_float_neg (d : Int) :
    fabs (static_cast_float (-d)) = fabs (static_cast_float d) := by
  rw [fabs_static_cast_float, fabs_static_cast_float, Int.natAbs_neg]

theorem fabs_static_cast_float_exact (d : Int) (h : |d| ≤ 2 ^ 24) :
    fabs (static_cast_float d) = |d| := by
  rw [fabs_static_cast_float, roundToFloat_of_le, Int.natCast_natAbs]
  have : ((d.natAbs : Nat) : Int) ≤ 2 ^ 24 := by rw [Int.natCast_natAbs]; exact h
  exact_mod_cast this

theorem static_cast_float_exact (d : Int) (h : |d| ≤ 2 ^ 24) : static_cast_float d = d := by
  have hle : d.natAbs ≤ 2 ^ 24 := by
    have : ((d.natAbs : Nat) : Int) ≤ 2 ^ 24 := by rw [Int.natCast_natAbs]; exact h
    exact_mod_cast this
  unfold static_cast_float
  rw [roundToFloat_of_le _ hle]
  split <;> omega

theorem toFloat_exact (p : Int) (h : |p| ≤ 2 ^ 24) : toFloat p = (p : ℚ) := by
  unfold toFloat
  rw [static_cast_float_exact p h]

theorem static_cast_uint8_lt (p : Int) : static_cast_uint8 p < 256 := by
  unfold static_cast_uint8
  have h1 : 0 ≤ p % 256 := Int.emod_nonneg p (by norm_num)
  have h2 : p % 256 < 256 := Int.emod_lt_of_pos p (by norm_num)
  omega

theorem static_cast_uint8_cast (p : Int) : ((static_cast_uint8 p : Nat) : Int) = p % 256 := by
  unfold static_cast_uint8
  exact Int.toNat_of_nonneg (Int.emod_nonneg p (by norm_num))

/-- The rounded value is a multiple of the unit in the last place. -/
theorem roundToFloat_dvd (n : Nat) : 2 ^ lostBits 8 n ∣ roundToFloat n := by
  unfold roundToFloat
  simp only []
  split_ifs <;> exact Dvd.intro_left _ rfl

/-- The rounded value is within half a unit in the last place of the magnitude. -/
theorem roundToFloat_near (n : Nat) :
    2 * roundToFloat n ≤ 2 * n + 2 ^ lostBits 8 n ∧
    2 * n ≤ 2 * roundToFloat n + 2 ^ lostBits 8 n := by
  have hn := Nat.div_add_mod n (2 ^ lostBits 8 n)
  have hr := Nat.mod_lt n (Nat.pos_pow_of_pos (lostBits 8 n) (by norm_num : 0 < 2))
  unfold roundToFloat
  simp only [Nat.add_mul, Nat.one_mul]
  rw [Nat.mul_comm] at hn
  generalize n / 2 ^ lostBits 8 n * 2 ^ lostBits 8 n = x at hn ⊢
  generalize n % 2 ^ lostBits 8 n = r at hn hr ⊢
  generalize 2 ^ lostBits 8 n = P at hn hr ⊢
  split_ifs <;> omega

/-- After dropping the lost bits the significand fits 24 bits. -/
theorem lostBits_significand (fuel n : Nat) (h : n < 2 ^ (24 + fuel)) :
    n / 2 ^ lostBits fuel n < 2 ^ 24 := by
  induction fuel generalizing n with
  | zero => simpa [lostBits] using h
  | succ k ih =>
    by_cases hn : n < 2 ^ 24
    · rw [lostBits_of_lt (k + 1) n hn]
      simpa using hn
    · have hlb : lostBits (k + 1) n = 1 + lostBits k (n / 2) := if_neg hn
      have h2 : n / 2 < 2 ^ (24 + k) := by
        have : 2 ^ (24 + (k + 1)) = 2 * 2 ^ (24 + k) := by rw [← Nat.add_assoc, Nat.pow_succ]; ring
        omega
      rw [hlb, Nat.pow_add, Nat.pow_one, ← Nat.div_div_eq_div_mul]
      exact ih (n / 2) h2

/-! ## Homing -/

theorem home_seeking_regs (D : Decls) (axis : Axis) (homingDistance : Int) (w : World)
    (hmiss : axis.hit D w.regs = false) :
    (EndMotion (HandleAxisLimitReached (HomeAxis D axis homingDistance w))).regs
        D.LIMIT_SW_PCMSK
      = (w.regs D.LIMIT_SW_PCMSK ||| axis.pcintMask D) % 256 := by
  cases axis <;> simp only [Axis.hit] at hmiss <;>
    simp [EndMotion, HandleAxisLimitReached, HomeAxis, HomeZAxis, HomeRAxis, hmiss, Move, call,
      orAssign, writeReg, Registers.store, Axis.pcintMask]

/-- C1 (already-home short-circuit): when the limit switch of axis A reads as
hit at call time, `HomeZAxis` / `HomeRAxis` sets `motionComplete`, emits no
effect at all (no register write, no planner or canonical-machine call), and
leaves the register file (so `LIMIT_SW_PCMSK`), `stepCount`, `PulsesPerUnit`
and both settings records as they were. -/
theorem home_already_home (D : Decls) (axis : Axis) (homingDistance : Int) (w : World)
    (hhit : axis.hit D w.regs = true) :
    (HomeAxis D axis homingDistance w).mcState.motionComplete = true ∧
    (HomeAxis D axis homingDistance w).trace = w.trace ∧
    (HomeAxis D axis homingDistance w).regs = w.regs ∧
    (HomeAxis D axis homingDistance w).stepCount = w.stepCount ∧
    (HomeAxis D axis homingDistance w).PulsesPerUnit = w.PulsesPerUnit ∧
    (HomeAxis D axis homingDistance w).mcState.zAxisSettings = w.mcState.zAxisSettings ∧
    (HomeAxis D axis homingDistance w).mcState.rAxisSettings = w.mcState.rAxisSettings := by
  cases axis <;> simp only [Axis.hit] at hhit <;>
    simp [HomeAxis, HomeZAxis, HomeRAxis, hhit]

/-- C1 at the sample board with both switches hit: `HomeRAxis` sets the flag and emits nothing. -/
theorem home_already_home_witness :
    Axis.hit board Axis.R homeWorld.regs = true ∧
    (HomeRAxis board 1000 homeWorld).mcState.motionComplete = true ∧
    (HomeRAxis board 1000 homeWorld).trace = homeWorld.trace :=
  ⟨by decide,
    (home_already_home board Axis.R 1000 homeWorld (by decide)).1,
    (home_already_home board Axis.R 1000 homeWorld (by decide)).2.1⟩

/-- C2 (seeking arms before moving): when the limit switch of axis A does not
read as hit at call time, `HomeZAxis` / `HomeRAxis` is the statement
`LIMIT_SW_PCMSK |= A's bit` followed by `Move(A, homingDistance, A's settings)`;
its effects are, in order, the write to `LIMIT_SW_PCMSK` (whose value has the
mask's bits set) and then the four calls of `Move`. -/
theorem home_seeking_arms_first (D : Decls) (axis : Axis) (homingDistance : Int) (w : World)
    (hmiss : axis.hit D w.regs = false) :
    HomeAxis D axis homingDistance w
      = Move D (axis.index D % 256) homingDistance (axis.settings w.mcState)
          (orAssign D.LIMIT_SW_PCMSK (axis.pcintMask D) w) ∧
    (HomeAxis D axis homingDistance w).trace
      = w.trace ++
        [Effect.write D.LIMIT_SW_PCMSK ((w.regs D.LIMIT_SW_PCMSK ||| axis.pcintMask D) % 256),
         Effect.mp_set_axis_position D.Z_AXIS 0,
         Effect.mp_set_axis_position D.R_AXIS 0,
         Effect.cm_cycle_start,
         Effect.cm_straight_feed (axis.index D % 256) (fabs (static_cast_float homingDistance))
           (axis.settings w.mcState)] ∧
    ((w.regs D.LIMIT_SW_PCMSK ||| axis.pcintMask D) % 256) &&& (axis.pcintMask D % 256)
      = axis.pcintMask D % 256 ∧
    (HomeAxis D axis homingDistance w).regs D.LIMIT_SW_PCMSK
      = (w.regs D.LIMIT_SW_PCMSK ||| axis.pcintMask D) % 256 := by
  refine ⟨?_, ?_, or_mod_and_mask _ _, ?_⟩ <;> cases axis <;> simp only [Axis.hit] at hmiss <;>
    simp [HomeAxis, HomeZAxis, HomeRAxis, hmiss, Move, call, orAssign, writeReg,
      Registers.store, Axis.index, Axis.settings, Axis.pcintMask]

/-- C2 at the sample board with no switch hit: the trace of `HomeZAxis` for the distance `-200000`. -/
theorem home_seeking_arms_first_witness :
    Axis.hit board Axis.Z idleWorld.regs = false ∧
    (HomeZAxis board (-200000) idleWorld).trace
      = [Effect.write 0x6C 2,
         Effect.mp_set_axis_position 0 0,
         Effect.mp_set_axis_position 1 0,
         Effect.cm_cycle_start,
         Effect.cm_straight_feed 0 200000 sampleSettings] :=
  ⟨by decide,
    ((home_seeking_arms_first board Axis.Z (-200000) idleWorld (by decide)).2.1).trans
      (by decide)⟩

/-- C5, as the code has it: `HomeZAxis` / `HomeRAxis` never clears
`motionComplete`. On return the flag is set exactly when the switch read as hit
or the flag was already set at call time; the seeking branch leaves the flag
at its prior value, so with the flag clear at call time it is set on return
exactly when the switch read as hit. -/
theorem home_motionComplete (D : Decls) (axis : Axis) (homingDistance : Int) (w : World) :
    (HomeAxis D axis homingDistance w).mcState.motionComplete
      = (axis.hit D w.regs || w.mcState.motionComplete) ∧
    (axis.hit D w.regs = false →
      (HomeAxis D axis homingDistance w).mcState.motionComplete = w.mcState.motionComplete) ∧
    (w.mcState.motionComplete = false →
      ((HomeAxis D axis homingDistance w).mcState.motionComplete = true ↔
        axis.hit D w.regs = true)) := by
  have key : (HomeAxis D axis homingDistance w).mcState.motionComplete
      = (axis.hit D w.regs || w.mcState.motionComplete) := by
    cases axis <;> simp only [Axis.hit, HomeAxis, HomeZAxis, HomeRAxis] <;> split <;>
      simp_all [Move, call, orAssign, writeReg]
  refine ⟨key, ?_, ?_⟩
  · intro h; rw [key, h]; rfl
  · intro h; rw [key, h]; simp

/-- C5 as stated fails: with the flag still set from an earlier request and the
Z switch not hit, `HomeZAxis` returns through the seeking branch with
`motionComplete` true. -/
theorem home_seeking_keeps_stale_flag :
    ¬ ((HomeZAxis board 1000 staleWorld).mcState.motionComplete = true →
        board.Z_AXIS_LIMIT_SW_HIT staleWorld.regs = true) := by
  decide


/-! ## Move and end of motion -/

/-- C6, as the code has it: `Move` sets `stepCount` to 0 and `PulsesPerUnit` to
`settings.PulsesPerUnit()`, and emits exactly `mp_set_axis_position(Z_AXIS, 0)`,
`mp_set_axis_position(R_AXIS, 0)`, `cm_cycle_start()`,
`cm_straight_feed(motorIndex, m, settings)` in that order, whichever axis
moves, where `m = fabs(float(distance))` is `|distance|` rounded to single
precision, and is `|distance|` itself whenever `|distance| ≤ 2^24`. `Move`
writes no register (so not `LIMIT_SW_PCMSK`) and leaves `mcState` (so
`motionComplete`) as it was. -/
theorem move_effects (D : Decls) (motorIndex : Nat) (distance : Int) (settings : AxisSettings)
    (w : World) :
    (Move D motorIndex distance settings w).stepCount = 0 ∧
    (Move D motorIndex distance settings w).PulsesPerUnit = D.PulsesPerUnit settings ∧
    (Move D motorIndex distance settings w).trace
      = w.trace ++
        [Effect.mp_set_axis_position D.Z_AXIS 0,
         Effect.mp_set_axis_position D.R_AXIS 0,
         Effect.cm_cycle_start,
         Effect.cm_straight_feed motorIndex ((roundToFloat distance.natAbs : Nat) : Int)
           settings] ∧
    (|distance| ≤ 2 ^ 24 →
      (Move D motorIndex distance settings w).trace
        = w.trace ++
          [Effect.mp_set_axis_position D.Z_AXIS 0,
           Effect.mp_set_axis_position D.R_AXIS 0,
           Effect.cm_cycle_start,
           Effect.cm_straight_feed motorIndex |distance| settings]) ∧
    (Move D motorIndex distance settings w).mcState = w.mcState ∧
    (Move D motorIndex distance settings w).regs = w.regs := by
  refine ⟨rfl, rfl, ?_, ?_, rfl, rfl⟩
  · simp [Move, call, fabs_static_cast_float]
  · intro h
    simp [Move, call, fabs_static_cast_float_exact distance h]

/-- C6 as stated fails: for the distance `-33554433` the magnitude handed to
`cm_straight_feed` is `33554432`, not `|distance| = 33554433`. -/
theorem move_magnitude_is_rounded :
    (Move board board.Z_AXIS (-33554433) sampleSettings idleWorld).trace
      ≠ idleWorld.trace ++
        [Effect.mp_set_axis_position board.Z_AXIS 0,
         Effect.mp_set_axis_position board.R_AXIS 0,
         Effect.cm_cycle_start,
         Effect.cm_straight_feed board.Z_AXIS 33554433 sampleSettings] := by
  decide

/-- C7, as the code has it: for every `int32` distance `d` other than
`INT32_MIN`, `Move(axis, -d, settings)` and `Move(axis, d, settings)` give the
same world (state and trace), and the magnitude both hand to `cm_straight_feed`
is non-negative and is `|d|` rounded to single precision; it is `|d|` itself
whenever `|d| ≤ 2^24`. The negation `-d` is again an `int32`. -/
theorem move_sign_symmetric (D : Decls) (axis : Nat) (settings : AxisSettings) (d : Int)
    (w : World) (hd : -2 ^ 31 < d ∧ d < 2 ^ 31) :
    (-2 ^ 31 < -d ∧ -d < 2 ^ 31) ∧
    Move D axis (-d) settings w = Move D axis d settings w ∧
    (Move D axis (-d) settings w).trace = (Move D axis d settings w).trace ∧
    Effect.cm_straight_feed axis (fabs (static_cast_float d)) settings
      ∈ (Move D axis (-d) settings w).trace ∧
    Effect.cm_straight_feed axis (fabs (static_cast_float d)) settings
      ∈ (Move D axis d settings w).trace ∧
    0 ≤ fabs (static_cast_float d) ∧
    fabs (static_cast_float d) = ((roundToFloat d.natAbs : Nat) : Int) ∧
    (|d| ≤ 2 ^ 24 → fabs (static_cast_float d) = |d|) := by
  have hsym : Move D axis (-d) settings w = Move D axis d settings w := by
    simp only [Move, fabs_static_cast_float_neg]
  refine ⟨⟨by omega, by omega⟩, hsym, by rw [hsym], ?_, ?_, ?_, fabs_static_cast_float d,
    fabs_static_cast_float_exact d⟩
  · rw [hsym]; simp [Move, call]
  · simp [Move, call]
  · rw [fabs_static_cast_float]; exact Int.ofNat_nonneg _

/-- C7 at `d = 500` on the sample board. -/
theorem move_sign_symmetric_witness :
    ((-2 ^ 31 : Int) < 500 ∧ (500 : Int) < 2 ^ 31) ∧
    Move board board.Z_AXIS (-500) sampleSettings idleWorld
      = Move board board.Z_AXIS 500 sampleSettings idleWorld ∧
    fabs (static_cast_float 500) = |500| :=
  ⟨by decide,
    (move_sign_symmetric board board.Z_AXIS sampleSettings 500 idleWorld (by decide)).2.1,
    (move_sign_symmetric board board.Z_AXIS sampleSettings 500 idleWorld
      (by decide)).2.2.2.2.2.2.2 (by decide)⟩

/-- C7 as stated fails: for `d = 16777217` the magnitude handed to
`cm_straight_feed` is `16777216`, which is not `|d|`. -/
theorem move_large_distance_inexact :
    (Move board board.R_AXIS 16777217 sampleSettings idleWorld).trace
      = [Effect.mp_set_axis_position 0 0,
         Effect.mp_set_axis_position 1 0,
         Effect.cm_cycle_start,
         Effect.cm_straight_feed 1 16777216 sampleSettings] ∧
    fabs (static_cast_float 16777217) ≠ |16777217| := by
  decide

/-- C8 (end-of-motion idempotence): with `mp_init_buffers` emptying the queue
and `cm_cycle_end` setting the cycle state to ended, two `EndMotion` calls in
a row leave the same core state and the same planner and canonical-machine
state as one: `stepCount` is 0, the queue is empty and the cycle is ended.
`EndMotion` emits exactly `mp_init_buffers`, `cm_cycle_end`, and writes neither
`mcState` (so `motionComplete`), `PulsesPerUnit` nor any register. -/
theorem end_motion_idempotent (handle : Effect → PlannerCM → PlannerCM)
    (hflush : ∀ p, handle Effect.mp_init_buffers p = mp_init_buffers p)
    (hend : ∀ p, handle Effect.cm_cycle_end p = cm_cycle_end p)
    (w : World) (p : PlannerCM) :
    (EndMotion (EndMotion w)).regs = (EndMotion w).regs ∧
    (EndMotion (EndMotion w)).mcState = (EndMotion w).mcState ∧
    (EndMotion (EndMotion w)).stepCount = (EndMotion w).stepCount ∧
    (EndMotion (EndMotion w)).PulsesPerUnit = (EndMotion w).PulsesPerUnit ∧
    runEffects handle (emitted w (EndMotion (EndMotion w))) p
      = runEffects handle (emitted w (EndMotion w)) p ∧
    (EndMotion w).stepCount = 0 ∧
    (runEffects handle (emitted w (EndMotion w)) p).queue = [] ∧
    (runEffects handle (emitted w (EndMotion w)) p).cycle = CycleState.ended ∧
    (EndMotion w).trace = w.trace ++ [Effect.mp_init_buffers, Effect.cm_cycle_end] ∧
    (EndMotion w).mcState = w.mcState ∧
    (EndMotion w).PulsesPerUnit = w.PulsesPerUnit ∧
    (EndMotion w).regs = w.regs := by
  have h1 : emitted w (EndMotion w) = [Effect.mp_init_buffers, Effect.cm_cycle_end] := by
    simp [emitted, EndMotion, call]
  have h2 : emitted w (EndMotion (EndMotion w))
      = [Effect.mp_init_buffers, Effect.cm_cycle_end, Effect.mp_init_buffers,
          Effect.cm_cycle_end] := by
    simp [emitted, EndMotion, call]
  refine ⟨rfl, rfl, rfl, rfl, ?_, rfl, ?_, ?_, ?_, rfl, rfl, rfl⟩
  · rw [h1, h2]
    simp [runEffects, hflush, hend, mp_init_buffers, cm_cycle_end]
  · rw [h1]
    simp [runEffects, hflush, hend, mp_init_buffers, cm_cycle_end]
  · rw [h1]
    simp [runEffects, hflush, hend, mp_init_buffers, cm_cycle_end]
  · simp [EndMotion, call]

/-- C8 on a planner holding one queued move in feedhold, with the sample handler. -/
theorem end_motion_idempotent_witness :
    runEffects sampleHandle
        (emitted staleWorld (EndMotion (EndMotion staleWorld)))
        { queue := [(0, 500)], cycle := CycleState.feedhold }
      = runEffects sampleHandle (emitted staleWorld (EndMotion staleWorld))
          { queue := [(0, 500)], cycle := CycleState.feedhold } ∧
    (EndMotion (EndMotion staleWorld)).stepCount = (EndMotion staleWorld).stepCount :=
  ⟨(end_motion_idempotent sampleHandle (fun _ => rfl) (fun _ => rfl) staleWorld
      { queue := [(0, 500)], cycle := CycleState.feedhold }).2.2.2.2.1,
    (end_motion_idempotent sampleHandle (fun _ => rfl) (fun _ => rfl) staleWorld
      { queue := [(0, 500)], cycle := CycleState.feedhold }).2.2.1⟩

/-! ## Limit handler -/

/-- C10 (limit handler does only a feedhold): `HandleAxisLimitReached` emits
exactly one effect, the call `cm_begin_feedhold` (no planner flush, no cycle
end, no register write, no delay), and leaves the register file (so
`LIMIT_SW_PCMSK`), `mcState` (so `motionComplete` and both settings records),
`stepCount` and `PulsesPerUnit` as they were. -/
theorem limit_handler_only_feedhold (w : World) :
    (HandleAxisLimitReached w).trace = w.trace ++ [Effect.cm_begin_feedhold] ∧
    emitted w (HandleAxisLimitReached w) = [Effect.cm_begin_feedhold] ∧
    (HandleAxisLimitReached w).regs = w.regs ∧
    (HandleAxisLimitReached w).mcState = w.mcState ∧
    (HandleAxisLimitReached w).stepCount = w.stepCount ∧
    (HandleAxisLimitReached w).PulsesPerUnit = w.PulsesPerUnit := by
  refine ⟨rfl, ?_, rfl, rfl, rfl, rfl⟩
  simp [emitted, HandleAxisLimitReached, call]


/-! ## Settings dispatch -/

/-- C4 (`Initialize` postcondition): on a coherent pin assignment, after
`Initialize` the Z and R bits of `LIMIT_SW_PCMSK` are clear and the group
enable bit of `PCICR` is set, the host-interrupt pin is an output (direction
bit set) driven high (port bit set), both limit-switch pins are inputs
(direction bit clear) with pull-up (port bit set), every register bit not
named by one of the nine assignments keeps its value, and the nine register
writes come first in the trace, followed by `Motors::Initialize`, `mp_init`,
`cm_init` in that order. -/
theorem initialize_postcondition (D : Decls) (hD : PinsWellFormed D) (w : World) :
    (Initialize D w).regs D.LIMIT_SW_PCMSK &&& D.Z_AXIS_LIMIT_SW_PCINT_BM = 0 ∧
    (Initialize D w).regs D.LIMIT_SW_PCMSK &&& D.R_AXIS_LIMIT_SW_PCINT_BM = 0 ∧
    (Initialize D w).regs D.PCICR &&& D.LIMIT_SW_PCIE_BM = D.LIMIT_SW_PCIE_BM ∧
    (Initialize D w).regs D.INTERRUPT_DDR &&& D.INTERRUPT_DD_BM = D.INTERRUPT_DD_BM ∧
    (Initialize D w).regs D.INTERRUPT_PORT &&& D.INTERRUPT_BM = D.INTERRUPT_BM ∧
    (Initialize D w).regs D.Z_AXIS_LIMIT_SW_DDR &&& D.Z_AXIS_LIMIT_SW_DD_BM = 0 ∧
    (Initialize D w).regs D.R_AXIS_LIMIT_SW_DDR &&& D.R_AXIS_LIMIT_SW_DD_BM = 0 ∧
    (Initialize D w).regs D.Z_AXIS_LIMIT_SW_PORT &&& D.Z_AXIS_LIMIT_SW_BM
      = D.Z_AXIS_LIMIT_SW_BM ∧
    (Initialize D w).regs D.R_AXIS_LIMIT_SW_PORT &&& D.R_AXIS_LIMIT_SW_BM
      = D.R_AXIS_LIMIT_SW_BM ∧
    (∀ a i, i < 8 → (∀ op ∈ initOps D, ¬ op.touches a i) →
      ((Initialize D w).regs a).testBit i = (w.regs a).testBit i) ∧
    (∀ a, (∀ op ∈ initOps D, a ≠ op.reg) → (Initialize D w).regs a = w.regs a) ∧
    (∃ v1 v2 v3 v4 v5 v6 v7 v8 v9,
      (Initialize D w).trace
        = w.trace ++
          [Effect.write D.INTERRUPT_DDR v1,
           Effect.write D.INTERRUPT_PORT v2,
           Effect.write D.Z_AXIS_LIMIT_SW_DDR v3,
           Effect.write D.R_AXIS_LIMIT_SW_DDR v4,
           Effect.write D.Z_AXIS_LIMIT_SW_PORT v5,
           Effect.write D.R_AXIS_LIMIT_SW_PORT v6,
           Effect.write D.PCICR v7,
           Effect.write D.LIMIT_SW_PCMSK v8,
           Effect.write D.LIMIT_SW_PCMSK v9,
           Effect.Motors_Initialize,
           Effect.mp_init,
           Effect.cm_init]) := by
  refine ⟨?_, ?_, ?_, ?_, ?_, ?_, ?_, ?_, ?_, ?_, ?_, ?_⟩
  · exact Initialize_clears D w hD _ _ (by simp [initOps])
  · exact Initialize_clears D w hD _ _ (by simp [initOps])
  · exact Initialize_sets D w hD _ _ (by simp [initOps])
  · exact Initialize_sets D w hD _ _ (by simp [initOps])
  · exact Initialize_sets D w hD _ _ (by simp [initOps])
  · exact Initialize_clears D w hD _ _ (by simp [initOps])
  · exact Initialize_clears D w hD _ _ (by simp [initOps])
  · exact Initialize_sets D w hD _ _ (by simp [initOps])
  · exact Initialize_sets D w hD _ _ (by simp [initOps])
  · intro a i hi h
    rw [Initialize_regs]
    exact runOps_untouched (initOps D) w a i hi h
  · intro a h
    rw [Initialize_regs]
    exact runOps_regs_of_ne (initOps D) w a h
  · simp only [Initialize, call, orAssign, andNotAssign, writeReg, List.append_assoc,
      List.singleton_append, List.cons_append, List.nil_append]
    exact ⟨_, _, _, _, _, _, _, _, _, rfl⟩

/-- C4 on the sample board, from cleared registers. -/
theorem initialize_postcondition_witness :
    PinsWellFormed board ∧
    (Initialize board idleWorld).regs board.LIMIT_SW_PCMSK
      &&& board.Z_AXIS_LIMIT_SW_PCINT_BM = 0 ∧
    (Initialize board idleWorld).regs board.PCICR &&& board.LIMIT_SW_PCIE_BM
      = board.LIMIT_SW_PCIE_BM :=
  ⟨by decide,
    (initialize_postcondition board (by decide) idleWorld).1,
    (initialize_postcondition board (by decide) idleWorld).2.2.1⟩

theorem Axis.pcintMask_clear (D : Decls) (hD : PinsWellFormed D) (w : World) (axis : Axis) :
    (Initialize D w).regs D.LIMIT_SW_PCMSK &&& axis.pcintMask D = 0 := by
  cases axis
  · exact Initialize_clears D w hD _ _ (by simp [initOps, Axis.pcintMask])
  · exact Initialize_clears D w hD _ _ (by simp [initOps, Axis.pcintMask])

theorem Axis.pcintMask_lt (D : Decls) (hD : PinsWellFormed D) (axis : Axis) :
    axis.pcintMask D < 256 := by
  cases axis
  · exact hD.1 ⟨false, D.LIMIT_SW_PCMSK, D.Z_AXIS_LIMIT_SW_PCINT_BM⟩ (by simp [initOps])
  · exact hD.1 ⟨false, D.LIMIT_SW_PCMSK, D.R_AXIS_LIMIT_SW_PCINT_BM⟩ (by simp [initOps])

theorem Axis.pcintMask_disjoint (D : Decls) (hS : SwitchBitsDistinct D) (axis : Axis) :
    axis.pcintMask D &&& axis.other.pcintMask D = 0 := by
  cases axis
  · exact hS
  · rw [Nat.land_comm]; exact hS

end MotorController
